import Mathlib

/-!
Verification development for a client-side media library organizer
(a single React page component).  The core logic is shallowly embedded:
the tag inference heuristic, the duration formatter, the search filter,
the tag suggestion algorithm, and the store mutations, all translated
from src/app/page.tsx.  React state updates become explicit state
passing on an AppState record.
-/

namespace MediaLib

/-- Boolean test that the pattern is a leading segment of the list,
modelling the character-by-character comparison underlying the
JavaScript String.prototype.includes matches used by the page. -/
def startsWithList : List Char → List Char → Bool
  | [], _ => true
  | _ :: _, [] => false
  | p :: ps, c :: cs => p == c && startsWithList ps cs

/-- Boolean test that the pattern occurs as a contiguous segment of the
list, at any position. -/
def containsList (pat : List Char) : List Char → Bool
  | [] => startsWithList pat []
  | c :: cs => startsWithList pat (c :: cs) || containsList pat cs

/-- String-level substring test: models JavaScript
lower.includes(pattern). -/
def containsSubstring (s pat : String) : Bool :=
  containsList pat.toList s.toList

/-- ASCII lowercase conversion, modelling String.prototype.toLowerCase
as applied to the filenames and queries of the page (all patterns the
page compares against are ASCII). -/
def toLowerStr (s : String) : String :=
  String.mk (s.data.map Char.toLower)

/-- Attempt of the regular expression 20 followed by two digits at the
start of the list: succeeds exactly when the list begins with the
literal 2, then 0, then two decimal digits, returning the matched
text. -/
def headYear : List Char → Option String
  | '2' :: '0' :: a :: b :: _ =>
    if a.isDigit && b.isDigit then some (String.mk ['2', '0', a, b]) else none
  | _ => none

/-- Leftmost match of the regular expression 20 followed by two digits,
modelling filename.match applied in generateAutoTags: the regex engine
attempts the pattern at each start position from the left and returns
the first matched text. -/
def findYear : List Char → Option String
  | [] => none
  | c :: cs =>
    match headYear (c :: cs) with
    | some y => some y
    | none => findYear cs

/-- Translation of generateAutoTags from src/app/page.tsx lines 82 to
105: keyword rules on the lowercased filename, the year regex on the
original filename, collected by push in source order, with the untagged
fallback when nothing fired. -/
def generateAutoTags (filename : String) : List String :=
  let lower := toLowerStr filename
  let tags : List String := []
  let tags := if containsSubstring lower "tutorial" || containsSubstring lower "how-to"
    then tags ++ ["tutorial"] else tags
  let tags := if containsSubstring lower "meeting" || containsSubstring lower "call"
    then tags ++ ["meeting"] else tags
  let tags := if containsSubstring lower "presentation" || containsSubstring lower "demo"
    then tags ++ ["presentation"] else tags
  let tags := if containsSubstring lower "screen" || containsSubstring lower "recording"
    then tags ++ ["screen-recording"] else tags
  let tags := if containsSubstring lower "webinar" then tags ++ ["webinar"] else tags
  let tags := if containsSubstring lower "interview" then tags ++ ["interview"] else tags
  let tags := match findYear filename.toList with
    | some y => tags ++ [y]
    | none => tags
  let tags := if containsSubstring lower "4k" then tags ++ ["4K"] else tags
  let tags := if containsSubstring lower "1080p" || containsSubstring lower "hd"
    then tags ++ ["HD"] else tags
  let tags := if containsSubstring lower "final" then tags ++ ["final"] else tags
  let tags := if containsSubstring lower "draft" then tags ++ ["draft"] else tags
  if tags.length > 0 then tags else ["untagged"]

/-- A tagging rule as the specification states it: either a keyword rule
(any listed keyword occurring case-insensitively yields the label) or
the year rule (first 20xx token of the filename). -/
inductive Rule where
  | kw : List String → String → Rule
  | year : Rule

/-- Labels a single rule contributes for a filename. -/
def ruleLabels (filename : String) : Rule → List String
  | .kw pats lab =>
    if pats.any (fun p => containsSubstring (toLowerStr filename) p) then [lab] else []
  | .year =>
    match findYear filename.toList with
    | some y => [y]
    | none => []

/-- The rule table of the specification, in source order. -/
def specRules : List Rule :=
  [ .kw ["tutorial", "how-to"] "tutorial"
  , .kw ["meeting", "call"] "meeting"
  , .kw ["presentation", "demo"] "presentation"
  , .kw ["screen", "recording"] "screen-recording"
  , .kw ["webinar"] "webinar"
  , .kw ["interview"] "interview"
  , .year
  , .kw ["4k"] "4K"
  , .kw ["1080p", "hd"] "HD"
  , .kw ["final"] "final"
  , .kw ["draft"] "draft" ]

/-- All labels fired by the specification rule table on a filename. -/
def specFired (filename : String) : List String :=
  (specRules.map (ruleLabels filename)).flatten

theorem push_eq (b : Bool) (tags : List String) (l : String) :
    (if b then tags ++ [l] else tags) = tags ++ (if b then [l] else []) := by
  cases b <;> simp

theorem fallback_eq (l : List String) :
    (if l.length > 0 then l else ["untagged"]) = (if l = [] then ["untagged"] else l) := by
  cases l <;> simp

/-- The translated function agrees with the rule-table reading of the
specification, including the untagged fallback. -/
theorem generateAutoTags_eq_spec (f : String) :
    generateAutoTags f = if specFired f = [] then ["untagged"] else specFired f := by
  cases hy : findYear f.toList <;>
    simp only [generateAutoTags, specFired, specRules, ruleLabels, hy, push_eq,
      List.map_cons, List.map_nil, List.any_cons, List.any_nil, Bool.or_false] <;>
    simp only [List.flatten_cons, List.flatten_nil, List.append_assoc,
      List.nil_append, List.append_nil] <;>
    rw [fallback_eq]

/-- C1: for every filename string, including the empty string,
generateAutoTags returns exactly the labels fired by the rule table
under case-insensitive substring matching, all rules evaluated
independently, and the singleton untagged list when zero rules fire;
the function is total, so it yields a result on any string. -/
theorem infer_returns_exactly_fired_rules (f : String) :
    generateAutoTags f = (if specFired f = [] then ["untagged"] else specFired f) ∧
    (generateAutoTags f).toFinset =
      (if specFired f = [] then ({"untagged"} : Finset String) else (specFired f).toFinset) := by
  refine ⟨generateAutoTags_eq_spec f, ?_⟩
  rw [generateAutoTags_eq_spec f]
  split <;> simp

/-- The year regex fires at position i of the character list. -/
def yearTokenAt (l : List Char) (i : Nat) : Bool :=
  (headYear (l.drop i)).isSome

/-- Recognizes a literal 4-digit year token of the form 20dd. -/
def isYearTok (s : String) : Bool :=
  match s.toList with
  | ['2', '0', a, b] => a.isDigit && b.isDigit
  | _ => false

theorem headYear_some_iff (l : List Char) (y : String) :
    headYear l = some y ↔
      ∃ a b rest, l = '2' :: '0' :: a :: b :: rest ∧
        a.isDigit = true ∧ b.isDigit = true ∧ y = String.mk ['2', '0', a, b] := by
  constructor
  · intro h
    unfold headYear at h
    split at h
    · next a b rest =>
      by_cases hab : a.isDigit && b.isDigit
      · rw [if_pos hab] at h
        injection h with h
        exact ⟨a, b, rest, rfl, (Bool.and_eq_true ..).mp hab |>.1,
          (Bool.and_eq_true ..).mp hab |>.2, h.symm⟩
      · rw [if_neg hab] at h; cases h
    · cases h
  · rintro ⟨a, b, rest, rfl, ha, hb, rfl⟩
    unfold headYear
    simp [ha, hb]

theorem yearTokenAt_zero (l : List Char) :
    yearTokenAt l 0 = (headYear l).isSome := rfl

theorem yearTokenAt_cons_succ (c : Char) (cs : List Char) (k : Nat) :
    yearTokenAt (c :: cs) (k + 1) = yearTokenAt cs k := rfl

/-- Full correctness of the leftmost-match search: it returns some y
exactly when the regex fires at a position j before which it fires
nowhere, and y is the 4-character text at j. -/
theorem findYear_some_iff (l : List Char) (y : String) :
    findYear l = some y ↔
      ∃ j, yearTokenAt l j = true ∧ (∀ k, k < j → yearTokenAt l k = false) ∧
        y = String.mk ((l.drop j).take 4) := by
  induction l with
  | nil =>
    simp only [findYear]
    constructor
    · intro h; cases h
    · rintro ⟨j, hj, -, -⟩
      simp [yearTokenAt, headYear] at hj
  | cons c cs ih =>
    rw [findYear]
    cases hh : headYear (c :: cs) with
    | some y0 =>
      obtain ⟨a, b, rest, hl, ha, hb, hy0⟩ := (headYear_some_iff _ _).mp hh
      constructor
      · intro h
        injection h with h
        subst h
        refine ⟨0, ?_, fun k hk => absurd hk (Nat.not_lt_zero k), ?_⟩
        · simp [yearTokenAt_zero, hh]
        · rw [hl] at *
          simp [hy0]
      · rintro ⟨j, hj, hmin, hy⟩
        have hj0 : j = 0 := by
          by_contra hne
          have h0 : yearTokenAt (c :: cs) 0 = false :=
            hmin 0 (Nat.pos_of_ne_zero hne)
          rw [yearTokenAt_zero, hh] at h0
          simp at h0
        subst hj0
        rw [hl] at hy
        simp at hy
        rw [hy, ← hy0]
    | none =>
      rw [ih]
      constructor
      · rintro ⟨j, hj, hmin, hy⟩
        refine ⟨j + 1, by rwa [yearTokenAt_cons_succ], ?_, by simpa using hy⟩
        intro k hk
        cases k with
        | zero => simp [yearTokenAt_zero, hh]
        | succ k' =>
          rw [yearTokenAt_cons_succ]
          exact hmin k' (by omega)
      · rintro ⟨j, hj, hmin, hy⟩
        cases j with
        | zero =>
          rw [yearTokenAt_zero, hh] at hj
          simp at hj
        | succ j' =>
          refine ⟨j', by rwa [yearTokenAt_cons_succ] at hj, ?_, by simpa using hy⟩
          intro k hk
          have := hmin (k + 1) (by omega)
          rwa [yearTokenAt_cons_succ] at this

theorem isYearTok_of_headYear {l : List Char} {y : String}
    (h : headYear l = some y) : isYearTok y = true := by
  obtain ⟨a, b, rest, -, ha, hb, rfl⟩ := (headYear_some_iff _ _).mp h
  show (a.isDigit && b.isDigit) = true
  rw [ha, hb]
  rfl

theorem isYearTok_of_findYear (l : List Char) (y : String)
    (h : findYear l = some y) : isYearTok y = true := by
  induction l with
  | nil => cases h
  | cons c cs ih =>
    rw [findYear] at h
    cases hh : headYear (c :: cs) with
    | some y0 =>
      rw [hh] at h
      injection h with h
      subst h
      exact isYearTok_of_headYear hh
    | none =>
      rw [hh] at h
      exact ih h

/-- The search fails exactly when the regex fires nowhere. -/
theorem findYear_none_iff (l : List Char) :
    findYear l = none ↔ ∀ i, yearTokenAt l i = false := by
  induction l with
  | nil =>
    simp only [findYear, true_iff]
    intro i
    simp [yearTokenAt, headYear]
  | cons c cs ih =>
    rw [findYear]
    cases hh : headYear (c :: cs) with
    | some y0 =>
      constructor
      · intro h; cases h
      · intro hall
        have h0 := hall 0
        rw [yearTokenAt_zero, hh] at h0
        simp at h0
    | none =>
      rw [ih]
      constructor
      · intro hall i
        cases i with
        | zero => simp [yearTokenAt_zero, hh]
        | succ k => rw [yearTokenAt_cons_succ]; exact hall k
      · intro hall k
        have := hall (k + 1)
        rwa [yearTokenAt_cons_succ] at this

theorem filter_ite_single (p : String → Bool) (c : Prop) [Decidable c] (l : String)
    (h : p l = false) :
    List.filter p (if c then [l] else []) = [] := by
  split <;> simp [h]

theorem isYearTok_kw_labels :
    isYearTok "tutorial" = false ∧ isYearTok "meeting" = false ∧
    isYearTok "presentation" = false ∧ isYearTok "screen-recording" = false ∧
    isYearTok "webinar" = false ∧ isYearTok "interview" = false ∧
    isYearTok "4K" = false ∧ isYearTok "HD" = false ∧
    isYearTok "final" = false ∧ isYearTok "draft" = false ∧
    isYearTok "untagged" = false := by decide

/-- Only the year rule contributes year-shaped labels to the fired
list. -/
theorem filter_specFired (f : String) :
    (specFired f).filter isYearTok = (findYear f.toList).toList := by
  obtain ⟨k1, k2, k3, k4, k5, k6, k7, k8, k9, k10, -⟩ := isYearTok_kw_labels
  cases hy : findYear f.toList with
  | none =>
    have hy' : findYear f.data = none := hy
    simp [specFired, specRules, ruleLabels, hy, hy', List.filter_append,
      filter_ite_single, k1, k2, k3, k4, k5, k6, k7, k8, k9, k10]
  | some y =>
    have hy' : findYear f.data = some y := hy
    have hyt := isYearTok_of_findYear _ _ hy
    simp [specFired, specRules, ruleLabels, hy, hy', List.filter_append,
      filter_ite_single, k1, k2, k3, k4, k5, k6, k7, k8, k9, k10, hyt]

/-- The inferred tag list carries exactly the year labels that the
leftmost regex search produces. -/
theorem filter_isYearTok_generateAutoTags (f : String) :
    (generateAutoTags f).filter isYearTok = (findYear f.toList).toList := by
  rw [generateAutoTags_eq_spec]
  split
  · next he =>
    have hn : findYear f.toList = none := by
      cases hy : findYear f.toList with
      | none => rfl
      | some y =>
        have h := filter_specFired f
        rw [he, hy] at h
        simp at h
    rw [hn]
    decide
  · next he =>
    exact filter_specFired f

/-- C5: whenever the filename contains a 4-digit token of the form 20
followed by two digits, the year rule of the tag inference adds exactly
one year label, namely the literal text of the first such occurrence;
later occurrences add no label, as in the recording_2021_vs_2022
example, whose inferred tags include 2021 but not 2022. -/
theorem year_rule_first_occurrence_only (f : String) (i : Nat)
    (hi : yearTokenAt f.toList i = true) :
    (∃ j, j ≤ i ∧ yearTokenAt f.toList j = true ∧
        (∀ k, k < j → yearTokenAt f.toList k = false) ∧
        (generateAutoTags f).filter isYearTok =
          [String.mk ((f.toList.drop j).take 4)]) ∧
    "2021" ∈ generateAutoTags "recording_2021_vs_2022.mp4" ∧
    "2022" ∉ generateAutoTags "recording_2021_vs_2022.mp4" := by
  refine ⟨?_, by decide, by decide⟩
  cases hy : findYear f.toList with
  | none =>
    rw [findYear_none_iff] at hy
    rw [hy i] at hi
    cases hi
  | some y =>
    obtain ⟨j, hj, hmin, hy4⟩ := (findYear_some_iff _ _).mp hy
    refine ⟨j, ?_, hj, hmin, ?_⟩
    · by_contra h
      rw [hmin i (by omega)] at hi
      cases hi
    · rw [filter_isYearTok_generateAutoTags, hy, hy4]
      rfl

/-- Witness for C5 at the example filename, with the first year token
at character position 10. -/
theorem year_rule_first_occurrence_only_witness :
    yearTokenAt "recording_2021_vs_2022.mp4".toList 10 = true ∧
    ((∃ j, j ≤ 10 ∧ yearTokenAt "recording_2021_vs_2022.mp4".toList j = true ∧
        (∀ k, k < j → yearTokenAt "recording_2021_vs_2022.mp4".toList k = false) ∧
        (generateAutoTags "recording_2021_vs_2022.mp4").filter isYearTok =
          [String.mk (("recording_2021_vs_2022.mp4".toList.drop j).take 4)]) ∧
    "2021" ∈ generateAutoTags "recording_2021_vs_2022.mp4" ∧
    "2022" ∉ generateAutoTags "recording_2021_vs_2022.mp4") :=
  ⟨by decide, year_rule_first_occurrence_only "recording_2021_vs_2022.mp4" 10 (by decide)⟩

/-- The VideoFile interface of src/app/page.tsx lines 6 to 16.  The
Date field is abstracted to a numeric timestamp and the object URL and
MIME type are kept as plain strings. -/
structure VideoFile where
  id : String
  name : String
  size : Nat
  duration : Option String := none
  uploadDate : Nat := 0
  tags : List String := []
  thumbnail : Option String := none
  url : String := ""
  type : String := ""
deriving DecidableEq, Repr

/-- The React state of the page relevant to the store: the video list,
the search query, the selected video mirror and the agent message (the
isUploading flag and the file input ref are pure UI plumbing and are
omitted). -/
structure AppState where
  videos : List VideoFile := []
  searchQuery : String := ""
  selectedVideo : Option VideoFile := none
  agentMessage : String := ""
deriving DecidableEq, Repr

/-- Per-entry update performed by addTag on the stored list, from
src/app/page.tsx lines 120 to 124: append the tag only when the entry
has the addressed id and does not already hold the tag. -/
def addTagUpdate (videoId tag : String) (v : VideoFile) : VideoFile :=
  if v.id == videoId && !(v.tags.contains tag) then { v with tags := v.tags ++ [tag] } else v

/-- Translation of addTag, src/app/page.tsx lines 119 to 129: maps the
guarded update over the stored list, and when the selected mirror has
the addressed id, rebuilds it by appending the tag unconditionally. -/
def addTag (s : AppState) (videoId tag : String) : AppState :=
  { s with
    videos := s.videos.map (addTagUpdate videoId tag),
    selectedVideo :=
      match s.selectedVideo with
      | some p => if p.id == videoId then some { p with tags := p.tags ++ [tag] } else some p
      | none => none,
    agentMessage := " Agent: Added tag \"" ++ tag ++ "\" to help organize your content." }

/-- Per-entry update performed by removeTag on the stored list, from
src/app/page.tsx lines 132 to 136: drop every copy of the tag from the
entry with the addressed id. -/
def removeTagUpdate (videoId tag : String) (v : VideoFile) : VideoFile :=
  if v.id == videoId then { v with tags := v.tags.filter (fun t => t != tag) } else v

/-- Translation of removeTag, src/app/page.tsx lines 131 to 140. -/
def removeTag (s : AppState) (videoId tag : String) : AppState :=
  { s with
    videos := s.videos.map (removeTagUpdate videoId tag),
    selectedVideo :=
      match s.selectedVideo with
      | some p =>
        if p.id == videoId then some { p with tags := p.tags.filter (fun t => t != tag) }
        else some p
      | none => none }

/-- Translation of deleteVideo, src/app/page.tsx lines 107 to 117.  The
URL.revokeObjectURL call releases an external resource and has no
effect on the state. -/
def deleteVideo (s : AppState) (id : String) : AppState :=
  { s with
    videos := s.videos.filter (fun v => v.id != id),
    selectedVideo :=
      match s.selectedVideo with
      | some p => if p.id == id then none else some p
      | none => none,
    agentMessage := " Agent: Video removed from your library." }

/-- Modelled from the spec: the Library Store operation patchDuration
of section 4.3 sets the duration field of the entry with the given
identifier.  src/app/page.tsx has no such function (the page resolves
the duration before inserting the entry), so the operation is taken
from the specification text, in the map-over-entries shape of the other
store mutations. -/
def patchDuration (s : AppState) (id durationString : String) : AppState :=
  { s with
    videos := s.videos.map (fun v =>
      if v.id == id then { v with duration := some durationString } else v) }

/-- Translation of the filteredVideos expression, src/app/page.tsx
lines 142 to 145: keep the entries whose lowercased name contains the
lowercased query, or one of whose lowercased tags contains it. -/
def filteredVideos (videos : List VideoFile) (searchQuery : String) : List VideoFile :=
  videos.filter (fun video =>
    containsSubstring (toLowerStr video.name) (toLowerStr searchQuery) ||
    video.tags.any (fun tag => containsSubstring (toLowerStr tag) (toLowerStr searchQuery)))

/-- One step of first-seen-order set insertion. -/
def insertUnique (acc : List String) (x : String) : List String :=
  if acc.contains x then acc else acc ++ [x]

/-- First-seen-order deduplication, modelling Array.from applied to a
JavaScript Set built from the flattened tag lists (a JavaScript Set
iterates in insertion order). -/
def dedupFirstSeen (l : List String) : List String :=
  l.foldl insertUnique []

/-- Translation of suggestTags, src/app/page.tsx lines 155 to 158:
collect the distinct tags across the library in first-seen order, drop
those already on the target video, and take the first five. -/
def suggestTags (videos : List VideoFile) (video : VideoFile) : List String :=
  let allTags := dedupFirstSeen ((videos.map (fun v => v.tags)).flatten)
  (allTags.filter (fun tag => !(video.tags.contains tag))).take 5

/-- Zero padding to width two, modelling padStart applied to the
seconds string. -/
def pad2 (s : String) : String :=
  if s.length < 2 then String.mk (List.replicate (2 - s.length) '0') ++ s else s

/-- Duration formatting on the success path of getVideoDuration,
src/app/page.tsx lines 71 to 75, with the metadata duration modelled as
an exact nonnegative rational number of seconds: minutes is the floor
of duration over 60 and seconds the floor of the JavaScript remainder
duration mod 60, which for nonnegative durations is duration minus 60
times the floored quotient. -/
def formatDuration (duration : ℚ) : String :=
  let minutes : ℤ := ⌊duration / 60⌋
  let seconds : ℤ := ⌊duration - 60 * ⌊duration / 60⌋⌋
  toString minutes ++ ":" ++ pad2 (toString seconds)

/-- The event that settles the metadata load of the probe element: the
loadedmetadata event carrying the duration, or the error event. -/
inductive MetadataEvent where
  | loadedmetadata : ℚ → MetadataEvent
  | error : MetadataEvent

/-- Outcome of a settled promise. -/
inductive PromiseOutcome (α : Type) where
  | resolved : α → PromiseOutcome α
  | rejected : PromiseOutcome α
deriving DecidableEq, Repr

/-- Translation of getVideoDuration, src/app/page.tsx lines 67 to 80:
the promise executor installs two handlers and only ever calls resolve,
so the function maps the event that settles the load to the outcome of
the returned promise: the formatted duration on loadedmetadata, the
literal Unknown on error. -/
def getVideoDuration : MetadataEvent → PromiseOutcome String
  | .loadedmetadata d => .resolved (formatDuration d)
  | .error => .resolved "Unknown"

theorem startsWithList_iff (pat s : List Char) :
    startsWithList pat s = true ↔ pat <+: s := by
  induction pat generalizing s with
  | nil => simp [startsWithList]
  | cons p ps ih =>
    cases s with
    | nil => simp [startsWithList]
    | cons c cs => simp [startsWithList, List.cons_prefix_cons, ih]

theorem containsList_iff (pat s : List Char) :
    containsList pat s = true ↔ pat <:+: s := by
  induction s with
  | nil => simp [containsList, startsWithList_iff]
  | cons c cs ih =>
    rw [containsList, Bool.or_eq_true, startsWithList_iff, ih, List.infix_cons_iff]

theorem containsSubstring_iff (s pat : String) :
    containsSubstring s pat = true ↔ pat.toList <:+: s.toList :=
  containsList_iff _ _

theorem containsList_nil_pat (s : List Char) : containsList [] s = true := by
  cases s <;> simp [containsList, startsWithList]

/-- C2: for every entry list and query, the filter keeps exactly the
entries whose lowercased display name contains the lowercased query as
a substring or one of whose lowercased labels does; the empty query
keeps every entry; and the result is a sublist of the input, so the
insertion order is preserved. -/
theorem filter_matches_query_exactly (videos : List VideoFile) (q : String) :
    (∀ v, v ∈ filteredVideos videos q ↔
      v ∈ videos ∧
        ((toLowerStr q).toList <:+: (toLowerStr v.name).toList ∨
          ∃ t ∈ v.tags, (toLowerStr q).toList <:+: (toLowerStr t).toList)) ∧
    filteredVideos videos "" = videos ∧
    (filteredVideos videos q).Sublist videos := by
  refine ⟨?_, ?_, List.filter_sublist _⟩
  · intro v
    simp [filteredVideos, List.mem_filter, containsSubstring_iff, List.any_eq_true]
  · rw [filteredVideos, List.filter_eq_self]
    intro v hv
    rw [Bool.or_eq_true]
    left
    exact containsList_nil_pat _

theorem mem_insertUnique (acc : List String) (x y : String) :
    y ∈ insertUnique acc x ↔ y ∈ acc ∨ y = x := by
  unfold insertUnique
  split
  · next h =>
    constructor
    · exact Or.inl
    · rintro (h' | rfl)
      · exact h'
      · simpa using h
  · simp

theorem mem_foldl_insertUnique (l : List String) (acc : List String) (y : String) :
    y ∈ l.foldl insertUnique acc ↔ y ∈ acc ∨ y ∈ l := by
  induction l generalizing acc with
  | nil => simp
  | cons x xs ih => simp [List.foldl_cons, ih, mem_insertUnique, or_assoc]

theorem mem_dedupFirstSeen (l : List String) (y : String) :
    y ∈ dedupFirstSeen l ↔ y ∈ l := by
  simp [dedupFirstSeen, mem_foldl_insertUnique]

/-- Example library with tag vocabulary a to f on a single entry. -/
def exLibrary : List VideoFile :=
  [{ id := "v1", name := "one.mp4", size := 0, tags := ["a", "b", "c", "d", "e", "f"] }]

/-- Example target entry holding only the tag a. -/
def exTarget : VideoFile :=
  { id := "v2", name := "two.mp4", size := 0, tags := ["a"] }

/-- C3: every suggested label occurs on some entry of the library and
is not already on the target, at most five labels are returned, and on
the a-to-f example library with a target holding a, the result has
length five and excludes a.  The candidate order is the first-seen
order fixed by dedupFirstSeen, so it is deterministic in the input
sequence. -/
theorem suggest_drawn_excluding_limited (videos : List VideoFile) (video : VideoFile) :
    (∀ t ∈ suggestTags videos video, (∃ v ∈ videos, t ∈ v.tags) ∧ t ∉ video.tags) ∧
    (suggestTags videos video).length ≤ 5 ∧
    suggestTags exLibrary exTarget = ["b", "c", "d", "e", "f"] ∧
    (suggestTags exLibrary exTarget).length = 5 ∧
    "a" ∉ suggestTags exLibrary exTarget := by
  refine ⟨?_, ?_, by decide, by decide, by decide⟩
  · intro t ht
    have ht' : t ∈ (dedupFirstSeen ((videos.map (fun v => v.tags)).flatten)).filter
        (fun tag => !(video.tags.contains tag)) :=
      (List.take_sublist _ _).subset ht
    rw [List.mem_filter] at ht'
    obtain ⟨htm, htp⟩ := ht'
    constructor
    · rw [mem_dedupFirstSeen, List.mem_flatten] at htm
      obtain ⟨l, hl, htl⟩ := htm
      rw [List.mem_map] at hl
      obtain ⟨v, hv, rfl⟩ := hl
      exact ⟨v, hv, htl⟩
    · simpa using htp
  · simp only [suggestTags]
    rw [List.length_take]
    exact Nat.min_le_left _ _

/-- C4: store mutations addressed at an identifier that no stored entry
carries leave the video list unchanged and raise no error, and a
duration patch arriving after a removal leaves the store without the
removed entry. -/
theorem missing_id_mutations_are_noops (s : AppState) (id tag d : String)
    (h : ∀ v ∈ s.videos, v.id ≠ id) :
    (deleteVideo s id).videos = s.videos ∧
    (addTag s id tag).videos = s.videos ∧
    (removeTag s id tag).videos = s.videos ∧
    (patchDuration s id d).videos = s.videos ∧
    (patchDuration (deleteVideo s id) id d).videos = (deleteVideo s id).videos ∧
    (∀ v ∈ (patchDuration (deleteVideo s id) id d).videos, v.id ≠ id) := by
  have hdel : ∀ v ∈ (deleteVideo s id).videos, v.id ≠ id := by
    intro v hv
    rw [deleteVideo] at hv
    simp only [List.mem_filter, bne_iff_ne, ne_eq] at hv
    exact hv.2
  have hmap : ∀ (l : List VideoFile), (∀ v ∈ l, v.id ≠ id) →
      ∀ (f : VideoFile → VideoFile), (∀ v, v.id ≠ id → f v = v) → l.map f = l := by
    intro l hl f hf
    induction l with
    | nil => rfl
    | cons a as ih =>
      rw [List.map_cons, hf a (hl a (by simp)), ih (fun v hv => hl v (by simp [hv]))]
  refine ⟨?_, ?_, ?_, ?_, ?_, ?_⟩
  · rw [deleteVideo]
    simp only []
    rw [List.filter_eq_self]
    intro v hv
    simpa using h v hv
  · exact hmap s.videos h _ (fun v hv => by simp [addTagUpdate, hv])
  · exact hmap s.videos h _ (fun v hv => by simp [removeTagUpdate, hv])
  · exact hmap s.videos h _ (fun v hv => by simp [hv])
  · exact hmap (deleteVideo s id).videos hdel _ (fun v hv => by simp [hv])
  · intro v hv
    rw [patchDuration] at hv
    simp only [List.mem_map] at hv
    obtain ⟨w, hw, rfl⟩ := hv
    have := hdel w hw
    split <;> simp_all

/-- Witness for C4 on a one-entry store addressed at an absent id. -/
theorem missing_id_mutations_are_noops_witness :
    (∀ v ∈ (AppState.mk [exTarget] "" none "").videos, v.id ≠ "zz") ∧
    ((deleteVideo (AppState.mk [exTarget] "" none "") "zz").videos =
        (AppState.mk [exTarget] "" none "").videos ∧
      (addTag (AppState.mk [exTarget] "" none "") "zz" "t").videos =
        (AppState.mk [exTarget] "" none "").videos ∧
      (removeTag (AppState.mk [exTarget] "" none "") "zz" "t").videos =
        (AppState.mk [exTarget] "" none "").videos ∧
      (patchDuration (AppState.mk [exTarget] "" none "") "zz" "2:30").videos =
        (AppState.mk [exTarget] "" none "").videos ∧
      (patchDuration (deleteVideo (AppState.mk [exTarget] "" none "") "zz") "zz" "2:30").videos =
        (deleteVideo (AppState.mk [exTarget] "" none "") "zz").videos ∧
      (∀ v ∈ (patchDuration (deleteVideo (AppState.mk [exTarget] "" none "") "zz")
          "zz" "2:30").videos, v.id ≠ "zz")) :=
  ⟨by decide, missing_id_mutations_are_noops (AppState.mk [exTarget] "" none "") "zz" "t" "2:30"
    (by decide)⟩

/-- Floor of a rational divided by 60 equals integer division of its
floor by 60. -/
theorem floor_div_sixty (d : ℚ) : ⌊d / 60⌋ = ⌊d⌋ / 60 := by
  apply le_antisymm
  · rw [Int.le_ediv_iff_mul_le (by norm_num : (0:ℤ) < 60), Int.le_floor]
    push_cast
    have h := Int.floor_le (d / 60)
    have h2 := mul_le_mul_of_nonneg_right h (by norm_num : (0:ℚ) ≤ 60)
    rwa [div_mul_cancel₀ d (by norm_num : (60:ℚ) ≠ 0)] at h2
  · rw [Int.le_floor]
    rw [le_div_iff₀ (by norm_num : (0:ℚ) < 60)]
    have h1 : ((⌊d⌋ / 60 : ℤ) : ℚ) * 60 ≤ ((⌊d⌋ : ℤ) : ℚ) := by
      exact_mod_cast Int.ediv_mul_le ⌊d⌋ (by norm_num)
    exact h1.trans (Int.floor_le d)

/-- Seconds reported by the formatter are the remainder of the floored
duration modulo 60. -/
theorem floor_remainder_sixty (d : ℚ) :
    ⌊d - 60 * (⌊d / 60⌋ : ℚ)⌋ = ⌊d⌋ % 60 := by
  rw [show (60 : ℚ) * (⌊d / 60⌋ : ℚ) = ((60 * ⌊d / 60⌋ : ℤ) : ℚ) by push_cast; ring]
  rw [Int.floor_sub_int, floor_div_sixty, Int.emod_def]

/-- C6: on a successful metadata load the resolver formats the duration
truncated to whole seconds as M colon SS, minutes of unbounded width
and seconds zero-padded to two digits, with 65.4, 5, 125.9 and 3600
seconds mapped to 1:05, 0:05, 2:05 and 60:00. -/
theorem duration_formats_whole_seconds (d : ℚ) (_h : 0 ≤ d) :
    getVideoDuration (MetadataEvent.loadedmetadata d) =
      PromiseOutcome.resolved
        (toString (⌊d⌋ / 60) ++ ":" ++ pad2 (toString (⌊d⌋ % 60))) ∧
    formatDuration (654/10) = "1:05" ∧
    formatDuration 5 = "0:05" ∧
    formatDuration (1259/10) = "2:05" ∧
    formatDuration 3600 = "60:00" := by
  refine ⟨?_, ?_, ?_, ?_, ?_⟩
  · rw [getVideoDuration, formatDuration]
    rw [floor_remainder_sixty, floor_div_sixty]
  · rw [formatDuration]
    rw [show ⌊(654/10 : ℚ) / 60⌋ = 1 by norm_num]
    rw [show ⌊(654/10 : ℚ) - 60 * ((1:ℤ):ℚ)⌋ = 5 by norm_num]
    decide
  · rw [formatDuration]
    rw [show ⌊(5 : ℚ) / 60⌋ = 0 by norm_num]
    rw [show ⌊(5 : ℚ) - 60 * ((0:ℤ):ℚ)⌋ = 5 by norm_num]
    decide
  · rw [formatDuration]
    rw [show ⌊(1259/10 : ℚ) / 60⌋ = 2 by norm_num]
    rw [show ⌊(1259/10 : ℚ) - 60 * ((2:ℤ):ℚ)⌋ = 5 by norm_num]
    decide
  · rw [formatDuration]
    rw [show ⌊(3600 : ℚ) / 60⌋ = 60 by norm_num]
    rw [show ⌊(3600 : ℚ) - 60 * ((60:ℤ):ℚ)⌋ = 0 by norm_num]
    decide

/-- Witness for C6 at duration 65.4 seconds. -/
theorem duration_formats_whole_seconds_witness :
    (0 : ℚ) ≤ 654/10 ∧
    (getVideoDuration (MetadataEvent.loadedmetadata (654/10)) =
      PromiseOutcome.resolved
        (toString (⌊(654/10 : ℚ)⌋ / 60) ++ ":" ++ pad2 (toString (⌊(654/10 : ℚ)⌋ % 60))) ∧
    formatDuration (654/10) = "1:05" ∧
    formatDuration 5 = "0:05" ∧
    formatDuration (1259/10) = "2:05" ∧
    formatDuration 3600 = "60:00") :=
  ⟨by norm_num, duration_formats_whole_seconds (654/10) (by norm_num)⟩

/-- C7: the duration resolver never rejects: every settling event leads
to a resolved outcome, and the error event resolves to the literal
Unknown. -/
theorem duration_resolver_never_rejects :
    (∀ e : MetadataEvent, ∃ s, getVideoDuration e = PromiseOutcome.resolved s) ∧
    getVideoDuration MetadataEvent.error = PromiseOutcome.resolved "Unknown" := by
  refine ⟨?_, rfl⟩
  intro e
  cases e with
  | loadedmetadata d => exact ⟨formatDuration d, rfl⟩
  | error => exact ⟨"Unknown", rfl⟩

theorem map_eq_self_on {α : Type} (l : List α) (f : α → α) (h : ∀ a ∈ l, f a = a) :
    l.map f = l := by
  induction l with
  | nil => rfl
  | cons a as ih =>
    rw [List.map_cons, h a (by simp), ih (fun a ha => h a (by simp [ha]))]

/-- Applying the guarded addTag update twice is the same as applying it
once. -/
theorem addTagUpdate_idem (id tag : String) (w : VideoFile) :
    addTagUpdate id tag (addTagUpdate id tag w) = addTagUpdate id tag w := by
  by_cases h : (w.id == id && !(w.tags.contains tag)) = true
  · have hw1 : addTagUpdate id tag w = { w with tags := w.tags ++ [tag] } := by
      rw [addTagUpdate, if_pos h]
    rw [hw1, addTagUpdate, if_neg (by simp)]
  · have hw1 : addTagUpdate id tag w = w := by
      rw [addTagUpdate, if_neg h]
    rw [hw1]
    exact hw1

/-- C8: addTag is idempotent on the stored list, and on an entry with
the addressed identifier whose label list holds the label at most once,
the updated entry holds the label exactly once. -/
theorem addTag_idempotent_on_store (s : AppState) (id tag : String)
    (v : VideoFile) (hv : v.id = id) (hc : v.tags.count tag ≤ 1) :
    (addTag (addTag s id tag) id tag).videos = (addTag s id tag).videos ∧
    (addTagUpdate id tag v).tags.count tag = 1 := by
  constructor
  · show ((s.videos.map (addTagUpdate id tag)).map (addTagUpdate id tag)) = _
    rw [List.map_map]
    apply List.map_congr_left
    intro a _
    exact addTagUpdate_idem id tag a
  · by_cases h : (v.id == id && !(v.tags.contains tag)) = true
    · have hnot : tag ∉ v.tags := by
        rcases Bool.and_eq_true .. |>.mp h with ⟨-, h2⟩
        simpa using h2
      rw [addTagUpdate, if_pos h]
      simp [List.count_eq_zero.mpr hnot]
    · have hmem : tag ∈ v.tags := by
        rw [Bool.and_eq_true] at h
        push_neg at h
        have := h (by simp [hv])
        simpa using this
      have h1 : 0 < v.tags.count tag := List.count_pos_iff.mpr hmem
      rw [addTagUpdate, if_neg h]
      omega

/-- Witness for C8 on a one-entry store and a fresh tag. -/
theorem addTag_idempotent_on_store_witness :
    (exTarget.id = "v2" ∧ exTarget.tags.count "x" ≤ 1) ∧
    ((addTag (addTag (AppState.mk [exTarget] "" none "") "v2" "x") "v2" "x").videos =
        (addTag (AppState.mk [exTarget] "" none "") "v2" "x").videos ∧
      (addTagUpdate "v2" "x" exTarget).tags.count "x" = 1) :=
  ⟨⟨by decide, by decide⟩,
    addTag_idempotent_on_store (AppState.mk [exTarget] "" none "") "v2" "x" exTarget
      (by decide) (by decide)⟩

/-- C9: removing the only label of the addressed entries leaves them
with an empty label list; no mutation reintroduces the untagged default
by itself: the guarded updates never add a label other than the one
given, and a duration patch never touches labels. -/
theorem remove_last_label_leaves_empty (s : AppState) (id L : String)
    (hv : ∀ v ∈ s.videos, v.id = id → v.tags = [L]) :
    (∀ w ∈ (removeTag s id L).videos, w.id = id → w.tags = []) ∧
    (∀ (w : VideoFile) (vid t : String), t ≠ "untagged" → "untagged" ∉ w.tags →
      "untagged" ∉ (addTagUpdate vid t w).tags ∧
      "untagged" ∉ (removeTagUpdate vid t w).tags) ∧
    (∀ (s' : AppState) (vid dur : String),
      (patchDuration s' vid dur).videos.map VideoFile.tags =
        s'.videos.map VideoFile.tags) := by
  refine ⟨?_, ?_, ?_⟩
  · intro w hw hid
    rw [removeTag] at hw
    simp only [List.mem_map] at hw
    obtain ⟨v, hvmem, rfl⟩ := hw
    rw [removeTagUpdate] at hid ⊢
    split at hid
    · next hcond =>
      rw [if_pos hcond]
      have := hv v hvmem (by simpa using hcond)
      simp [this]
    · next hcond =>
      rw [if_neg hcond]
      exact absurd (by simp [hid]) hcond
  · intro w vid t ht hw
    constructor
    · rw [addTagUpdate]
      split
      · simp only [List.mem_append, List.mem_singleton]
        rintro (h | h)
        · exact hw h
        · exact ht h.symm
      · exact hw
    · rw [removeTagUpdate]
      split
      · intro h
        exact hw (List.mem_of_mem_filter h)
      · exact hw
  · intro s' vid dur
    rw [patchDuration, List.map_map]
    apply List.map_congr_left
    intro a _
    simp only [Function.comp_apply]
    split <;> rfl

/-- Witness for C9 on a store whose single entry holds one label. -/
theorem remove_last_label_leaves_empty_witness :
    (∀ v ∈ (AppState.mk [VideoFile.mk "v1" "solo.mp4" 0 none 0 ["solo"] none "" ""] "" none
        "").videos, v.id = "v1" → v.tags = ["solo"]) ∧
    ((∀ w ∈ (removeTag (AppState.mk [VideoFile.mk "v1" "solo.mp4" 0 none 0 ["solo"] none "" ""]
        "" none "") "v1" "solo").videos, w.id = "v1" → w.tags = []) ∧
      (∀ (w : VideoFile) (vid t : String), t ≠ "untagged" → "untagged" ∉ w.tags →
        "untagged" ∉ (addTagUpdate vid t w).tags ∧
        "untagged" ∉ (removeTagUpdate vid t w).tags) ∧
      (∀ (s' : AppState) (vid dur : String),
        (patchDuration s' vid dur).videos.map VideoFile.tags =
          s'.videos.map VideoFile.tags)) :=
  ⟨by decide,
    remove_last_label_leaves_empty
      (AppState.mk [VideoFile.mk "v1" "solo.mp4" 0 none 0 ["solo"] none "" ""] "" none "")
      "v1" "solo" (by decide)⟩

/-- C10: when addTag is called with a label the addressed entry already
holds and that entry is the selected one, the stored list is unchanged
but the selected mirror appends the label anyway, so the selected copy
holds a duplicate and no longer matches any stored entry with that
identifier. -/
theorem addTag_diverges_selected_mirror (s : AppState) (p : VideoFile)
    (id tag : String) (hsel : s.selectedVideo = some p) (hid : p.id = id)
    (htag : tag ∈ p.tags) (hstore : ∀ v ∈ s.videos, v.id = id → v = p) :
    (addTag s id tag).videos = s.videos ∧
    (addTag s id tag).selectedVideo = some { p with tags := p.tags ++ [tag] } ∧
    2 ≤ ((addTag s id tag).selectedVideo.elim [] VideoFile.tags).count tag ∧
    (∀ v ∈ (addTag s id tag).videos, v.id = id → v.tags ≠ p.tags ++ [tag]) := by
  have hvideos : (addTag s id tag).videos = s.videos := by
    show s.videos.map (addTagUpdate id tag) = s.videos
    apply map_eq_self_on
    intro v hvmem
    rw [addTagUpdate]
    by_cases hvid : v.id = id
    · have hveq : v = p := hstore v hvmem hvid
      rw [if_neg]
      subst hveq
      simp [htag]
    · rw [if_neg]
      simp [hvid]
  have hselv : (addTag s id tag).selectedVideo = some { p with tags := p.tags ++ [tag] } := by
    rw [addTag]
    simp only [hsel]
    rw [if_pos (by simp [hid])]
  refine ⟨hvideos, hselv, ?_, ?_⟩
  · rw [hselv]
    show 2 ≤ (p.tags ++ [tag]).count tag
    have h1 : 0 < p.tags.count tag := List.count_pos_iff.mpr htag
    have h2 : (p.tags ++ [tag]).count tag = p.tags.count tag + 1 := by
      rw [List.count_append]
      simp
    omega
  · intro v hvmem hvid
    rw [hvideos] at hvmem
    have hveq : v = p := hstore v hvmem hvid
    subst hveq
    intro hcontra
    have : v.tags.length = v.tags.length + 1 := by
      conv_lhs => rw [hcontra]
      simp
    omega

/-- Witness for C10: a one-entry store whose entry is selected and
already holds the tag being added. -/
theorem addTag_diverges_selected_mirror_witness :
    ((AppState.mk [VideoFile.mk "v1" "n.mp4" 0 none 0 ["t"] none "" ""] ""
        (some (VideoFile.mk "v1" "n.mp4" 0 none 0 ["t"] none "" "")) "").selectedVideo =
      some (VideoFile.mk "v1" "n.mp4" 0 none 0 ["t"] none "" "") ∧
      (VideoFile.mk "v1" "n.mp4" 0 none 0 ["t"] none "" "").id = "v1" ∧
      "t" ∈ (VideoFile.mk "v1" "n.mp4" 0 none 0 ["t"] none "" "").tags) ∧
    ((addTag (AppState.mk [VideoFile.mk "v1" "n.mp4" 0 none 0 ["t"] none "" ""] ""
        (some (VideoFile.mk "v1" "n.mp4" 0 none 0 ["t"] none "" "")) "") "v1" "t").videos =
      (AppState.mk [VideoFile.mk "v1" "n.mp4" 0 none 0 ["t"] none "" ""] ""
        (some (VideoFile.mk "v1" "n.mp4" 0 none 0 ["t"] none "" "")) "").videos ∧
      (addTag (AppState.mk [VideoFile.mk "v1" "n.mp4" 0 none 0 ["t"] none "" ""] ""
        (some (VideoFile.mk "v1" "n.mp4" 0 none 0 ["t"] none "" "")) "") "v1" "t").selectedVideo =
        some { VideoFile.mk "v1" "n.mp4" 0 none 0 ["t"] none "" "" with
          tags := (VideoFile.mk "v1" "n.mp4" 0 none 0 ["t"] none "" "").tags ++ ["t"] } ∧
      2 ≤ ((addTag (AppState.mk [VideoFile.mk "v1" "n.mp4" 0 none 0 ["t"] none "" ""] ""
        (some (VideoFile.mk "v1" "n.mp4" 0 none 0 ["t"] none "" "")) "")
          "v1" "t").selectedVideo.elim [] VideoFile.tags).count "t" ∧
      (∀ v ∈ (addTag (AppState.mk [VideoFile.mk "v1" "n.mp4" 0 none 0 ["t"] none "" ""] ""
        (some (VideoFile.mk "v1" "n.mp4" 0 none 0 ["t"] none "" "")) "") "v1" "t").videos,
        v.id = "v1" →
          v.tags ≠ (VideoFile.mk "v1" "n.mp4" 0 none 0 ["t"] none "" "").tags ++ ["t"])) :=
  ⟨⟨rfl, by decide, by decide⟩,
    addTag_diverges_selected_mirror
      (AppState.mk [VideoFile.mk "v1" "n.mp4" 0 none 0 ["t"] none "" ""] ""
        (some (VideoFile.mk "v1" "n.mp4" 0 none 0 ["t"] none "" "")) "")
      (VideoFile.mk "v1" "n.mp4" 0 none 0 ["t"] none "" "") "v1" "t"
      rfl (by decide) (by decide) (by decide)⟩

end MediaLib
